import Mathlib

/-!
Verification of the CFP extraction engine of `src/cfp_scraper.py`.

The two extractors are embedded shallowly: the HTTP fetch and the HTML parser
are external collaborators, so each extractor is modelled as a pure function
of the already-selected markup structure (class attributes, label nodes,
value nodes, list items), with a node abstracted to the list of its
descendant text strings — exactly the data BeautifulSoup's `get_text`
consumes.  Python string operations (`strip`, `lower`, `in`, `startswith`,
`join`, `split(":", 1)[-1]`) are modelled by executable Lean functions on
character lists.  A bs4 `Tag` defines `__bool__` as constantly `True`, so
every truthiness test on a tag in the source is a test for `None`.
-/

set_option linter.unusedVariables false
set_option linter.unnecessarySeqFocus false

namespace CfpScraper

/-- Whitespace test used by the string normalization (model of the whitespace
class of Python's `str.strip`, restricted to common ASCII whitespace). -/
def isWs (c : Char) : Bool := c.isWhitespace

/-- Model of Python `str.strip` on the character list of a string. -/
def stripList (cs : List Char) : List Char :=
  ((cs.dropWhile isWs).reverse.dropWhile isWs).reverse

/-- Model of Python `str.strip`. -/
def pyStrip (s : String) : String := ⟨stripList s.data⟩

/-- Model of Python `str.lower` (ASCII case folding). -/
def pyLower (s : String) : String := ⟨s.data.map Char.toLower⟩

/-- Helper for substring search: does the needle occur inside the haystack? -/
def containsAux (needle : List Char) : List Char → Bool
  | [] => needle.isEmpty
  | c :: rest => needle.isPrefixOf (c :: rest) || containsAux needle rest

/-- Model of the Python substring test `needle in haystack`. -/
def pyContains (haystack needle : String) : Bool :=
  containsAux needle.data haystack.data

/-- Model of Python `s.startswith(p)`. -/
def pyStartsWith (s p : String) : Bool := p.data.isPrefixOf s.data

/-- Model of Python `sep.join(parts)`. -/
def pyJoin (sep : String) : List String → String
  | [] => ""
  | [s] => s
  | s :: t :: rest => s ++ sep ++ pyJoin sep (t :: rest)

/-- Model of Python `s.split(":", 1)[-1]`: everything after the first colon,
or the whole string when no colon occurs. -/
def afterFirstColon (s : String) : String :=
  match s.data.dropWhile (fun c => c != ':') with
  | [] => s
  | _ :: rest => ⟨rest⟩

/-- A markup node, abstracted to the list of its descendant text strings in
document order — the data BeautifulSoup's `get_text` consumes. -/
structure Node where
  strings : List String
deriving DecidableEq, Repr

/-- Model of BeautifulSoup's `node.get_text(sep, strip=True)`: each descendant
string is stripped, strings that become empty are skipped, and the remaining
strings are joined by `sep`. -/
def Node.getText (n : Node) (sep : String) : String :=
  pyJoin sep ((n.strings.map pyStrip).filter (fun s => s != ""))

/-- Embedding of `_text_or_none` (src/cfp_scraper.py, lines 34-38): a bs4 Tag
is always truthy, so `if not node` tests for `None`; `text or None` turns the
empty string into `None`. -/
def text_or_none : Option Node → Option String
  | none => none
  | some node =>
    let text := node.getText ""
    if text = "" then none else some text

/-- The `a` tag selected by `.c-entry__title a`: its text content and, when
present, its raw `href` attribute. -/
structure TitleTag where
  node : Node
  href : Option String
deriving DecidableEq, Repr

/-- One `li.c-entry__meta-item`: its `class` attribute (`none` when absent),
and the nodes selected by `.c-entry__meta-label` / `.c-entry__meta-value`. -/
structure MetaItem where
  classes : Option (List String)
  label : Option Node
  value : Option Node
deriving DecidableEq, Repr

/-- One `div.c-entry` container of the listing page. -/
structure Entry where
  titleTag : Option TitleTag
  metaItems : List MetaItem
deriving DecidableEq, Repr

/-- Embedding of the `CfpEvent` dataclass (lines 11-18). -/
structure CfpEvent where
  title : String
  link : String
  date : Option String
  location : Option String
  event_type : Option String
  status : Option String
deriving DecidableEq, Repr

/-- Embedding of the info-marker test
`meta_item.get("class") and "is-info" in meta_item.get("class", [])`
(lines 75-77): the class list is truthy (present and non-empty) and
holds `"is-info"`. -/
def MetaItem.isInfo (item : MetaItem) : Bool :=
  match item.classes with
  | some cs => !cs.isEmpty && cs.contains "is-info"
  | none => false

/-- Accumulator of the meta-item loop of `fetch_cfp_events` (lines 65-68). -/
structure MetaAcc where
  date_val : Option String
  location_val : Option String
  type_val : Option String
  status_val : Option String
deriving DecidableEq, Repr

/-- Embedding of one iteration of the meta-item loop of `fetch_cfp_events`
(lines 70-91).  `x or y` on an `Optional[str]` that is never the empty
string is `Option.orElse`. -/
def processMetaItem (acc : MetaAcc) (item : MetaItem) : MetaAcc :=
  let label_text := text_or_none item.label
  let value_text := text_or_none item.value
  match label_text with
  | none =>
    if item.isInfo then { acc with status_val := value_text <|> acc.status_val }
    else acc
  | some l =>
    let label_key := pyLower l
    if pyContains label_key "date" then
      { acc with date_val := value_text <|> acc.date_val }
    else if pyContains label_key "location" then
      { acc with location_val := value_text <|> acc.location_val }
    else if pyContains label_key "type" then
      { acc with type_val := value_text <|> acc.type_val }
    else acc

/-- Embedding of the href extraction (lines 54-58): bs4 Tags are always
truthy, so the condition is that the title tag exists and has an `href`
attribute; the attribute value is stripped. -/
def entryHref (entry : Entry) : String :=
  match entry.titleTag with
  | some t =>
    match t.href with
    | some h => pyStrip h
    | none => ""
  | none => ""

/-- Embedding of the link resolution (lines 59-62). -/
def resolveLink (href : String) : String :=
  if href != "" && pyStartsWith href "/" then "https://sessionize.com" ++ href
  else href

/-- Embedding of the per-entry body of `fetch_cfp_events` (lines 50-102). -/
def extractEvent (entry : Entry) : CfpEvent :=
  let title := (text_or_none (entry.titleTag.map TitleTag.node)).getD ""
  let link := resolveLink (entryHref entry)
  let acc := entry.metaItems.foldl processMetaItem ⟨none, none, none, none⟩
  { title := title, link := link, date := acc.date_val,
    location := acc.location_val, event_type := acc.type_val,
    status := acc.status_val }

/-- Embedding of `fetch_cfp_events` (lines 41-104), applied to the already
fetched and parsed list of `div.c-entry` containers. -/
def fetch_cfp_events (entries : List Entry) : List CfpEvent :=
  entries.map extractEvent

/-- Kind of a column of an ibox row: `.col-sm-6` or `.col-sm-12`. -/
inductive ColKind where
  | sm6
  | sm12
deriving DecidableEq, Repr

/-- One column of an ibox row, with the nodes found by
`select_one(".font-bold")`, `select_one("h2")` and `select("h2 .block")`. -/
structure Col where
  kind : ColKind
  font_bold : Option Node
  h2 : Option Node
  h2_blocks : List Node
deriving DecidableEq, Repr

/-- The node selected by `small.text-muted`, with its optional `strong`
child. -/
structure TzNote where
  node : Node
  strong : Option Node
deriving DecidableEq, Repr

/-- One `div.ibox` of a detail page: its `.ibox-title h4` / `h5` headers, the
columns of its `.ibox-content` rows in document order, the timezone note, and
the list items selected by `.ibox-content ul li`. -/
structure Ibox where
  header_h4 : Option Node
  header_h5 : Option Node
  cols : List Col
  tz_small : Option TzNote
  list_items : List Node
deriving DecidableEq, Repr

/-- Embedding of the `CfpEventDetails` dataclass (lines 21-31). -/
structure CfpEventDetails where
  title : Option String
  event_starts : Option String
  event_ends : Option String
  location : Option String
  cfp_opens : Option String
  cfp_closes : Option String
  cfp_timezone : Option String
  cfp_notifications : Option String
  schedule_announced : Option String
deriving DecidableEq, Repr

/-- The header tag name passed to `_find_ibox_by_header`. -/
inductive HeaderTag where
  | h4
  | h5
deriving DecidableEq, Repr

/-- The node selected by the f-string selector `.ibox-title {header_tag}`. -/
def Ibox.header (b : Ibox) : HeaderTag → Option Node
  | HeaderTag.h4 => b.header_h4
  | HeaderTag.h5 => b.header_h5

/-- Embedding of `_find_ibox_by_header` (lines 107-115): a bs4 Tag is always
truthy, so `if header and ...` keeps every ibox whose header node exists and
whose lowered text contains the lowered `header_text`. -/
def find_ibox_by_header (iboxes : List Ibox) (header_tag : HeaderTag)
    (header_text : String) : Option Ibox :=
  iboxes.find? fun ibox =>
    match ibox.header header_tag with
    | some h => pyContains (pyLower (h.getText "")) (pyLower header_text)
    | none => false

/-- Embedding of one step of the event starts / event ends loop of
`_extract_title_date_location` (lines 127-136). -/
def datesStep (acc : Option String × Option String) (col : Col) :
    Option String × Option String :=
  let label := (text_or_none col.font_bold).getD ""
  let value := text_or_none col.h2
  let label_l := pyLower label
  if pyContains label_l "event starts" then (value, acc.2)
  else if pyContains label_l "event ends" then (acc.1, value)
  else acc

/-- The first `.col-sm-12` column whose `.font-bold` label contains
`"location"` (lines 140-142, with the `break` at line 149). -/
def locationCol (ibox : Ibox) : Option Col :=
  (ibox.cols.filter (fun c => c.kind = ColKind.sm12)).find? fun col =>
    pyContains (pyLower ((text_or_none col.font_bold).getD "")) "location"

/-- Embedding of `_extract_title_date_location` (lines 118-152). -/
def extract_title_date_location (ibox : Ibox) :
    Option String × Option String × Option String × Option String :=
  let title := text_or_none ibox.header_h4
  let dates := ibox.cols.foldl datesStep (none, none)
  let location_tag :=
    match locationCol ibox with
    | some col =>
      if !col.h2_blocks.isEmpty then col.h2_blocks.getLast? else col.h2
    | none => none
  (title, dates.1, dates.2, text_or_none location_tag)

/-- Embedding of one step of the call opens / call closes loop of
`_extract_cfp_section` (lines 161-167). -/
def cfpDatesStep (acc : Option String × Option String) (col : Col) :
    Option String × Option String :=
  let label := (text_or_none col.font_bold).getD ""
  let val := text_or_none col.h2
  if pyContains (pyLower label) "call opens" then (val, acc.2)
  else if pyContains (pyLower label) "call closes" then (acc.1, val)
  else acc

/-- Embedding of one step of the dates-to-remember list loop of
`_extract_cfp_section` (lines 180-187). -/
def cfpListStep (acc : Option String × Option String) (li : Node) :
    Option String × Option String :=
  let text := li.getText " "
  let low := pyLower text
  if pyStartsWith low "cfp notifications" || pyContains low "notifications" then
    (some (pyStrip (afterFirstColon text)), acc.2)
  else if pyStartsWith low "schedule announced" ||
      pyContains low "schedule announced" then
    (acc.1, some (pyStrip (afterFirstColon text)))
  else acc

/-- Embedding of `_extract_cfp_section` (lines 155-189). -/
def extract_cfp_section (ibox : Ibox) :
    Option String × Option String × Option String × Option String ×
      Option String :=
  let oc := (ibox.cols.filter (fun c => c.kind = ColKind.sm6)).foldl
    cfpDatesStep (none, none)
  let timezone :=
    match ibox.tz_small with
    | some tz => text_or_none tz.strong <|> text_or_none (some tz.node)
    | none => none
  let ns := ibox.list_items.foldl cfpListStep (none, none)
  (oc.1, oc.2, timezone, ns.1, ns.2)

/-- The event box selection of `fetch_event_details` (lines 201-205): the
first ibox matched by `_find_ibox_by_header(soup, "h4", "")`, with a fallback
to the first ibox of the document. -/
def event_box_of (iboxes : List Ibox) : Option Ibox :=
  match find_ibox_by_header iboxes HeaderTag.h4 "" with
  | some b => some b
  | none => iboxes.head?

/-- Embedding of `fetch_event_details` (lines 192-238), applied to the parsed
list of `div.ibox` containers of the event page. -/
def fetch_event_details (iboxes : List Ibox) : CfpEventDetails :=
  let event_box := event_box_of iboxes
  let tsel :=
    match event_box with
    | some b =>
      let title0 := text_or_none b.header_h4
      let r := extract_title_date_location b
      (title0 <|> r.1, r.2.1, r.2.2.1, r.2.2.2)
    | none => (none, none, none, none)
  let cfp_box := find_ibox_by_header iboxes HeaderTag.h5 "Call for Papers"
  let cfps :=
    match cfp_box with
    | some b => extract_cfp_section b
    | none => (none, none, none, none, none)
  { title := tsel.1, event_starts := tsel.2.1, event_ends := tsel.2.2.1,
    location := tsel.2.2.2, cfp_opens := cfps.1, cfp_closes := cfps.2.1,
    cfp_timezone := cfps.2.2.1, cfp_notifications := cfps.2.2.2.1,
    schedule_announced := cfps.2.2.2.2 }

/-- Primary-container selection as the specification words it: the first
container whose heading has non-empty text, otherwise the first container in
document order.  Stated from the spec for comparison with `event_box_of`,
which embeds the code. -/
def primary_box_claim (iboxes : List Ibox) : Option Ibox :=
  match iboxes.find? (fun b =>
      match b.header_h4 with
      | some h => h.getText "" != ""
      | none => false) with
  | some b => some b
  | none => iboxes.head?

/-- An optional field that is absent or a non-empty stripped string. -/
def OptOk (o : Option String) : Prop :=
  ∀ t, o = some t → t ≠ "" ∧ pyStrip t = t

/-- An optional field that is absent or a stripped string (possibly empty). -/
def OptTrim (o : Option String) : Prop :=
  ∀ t, o = some t → pyStrip t = t

/-- All four accumulator fields of the listing meta-item loop are absent or
non-empty stripped strings. -/
def MetaAccOk (acc : MetaAcc) : Prop :=
  OptOk acc.date_val ∧ OptOk acc.location_val ∧ OptOk acc.type_val ∧
    OptOk acc.status_val

/-- Both components of a fold state are absent or non-empty stripped. -/
def PairOk (p : Option String × Option String) : Prop :=
  OptOk p.1 ∧ OptOk p.2

/-- Both components of a fold state are absent or stripped. -/
def PairTrim (p : Option String × Option String) : Prop :=
  OptTrim p.1 ∧ OptTrim p.2

/-! ## String-normalization lemmas -/

theorem containsAux_nil_needle : ∀ hs : List Char, containsAux [] hs = true
  | [] => rfl
  | _ :: rest => by simp [containsAux, List.isPrefixOf]

theorem isPrefixOf_trans :
    ∀ (a b c : List Char), a.isPrefixOf b = true → b.isPrefixOf c = true →
      a.isPrefixOf c = true
  | [], _, _, _, _ => by simp [List.isPrefixOf]
  | a :: as, [], _, h, _ => by simp [List.isPrefixOf] at h
  | a :: as, b :: bs, [], _, h => by simp [List.isPrefixOf] at h
  | a :: as, b :: bs, c :: cs, h1, h2 => by
    simp only [List.isPrefixOf, Bool.and_eq_true, beq_iff_eq] at h1 h2 ⊢
    exact ⟨h1.1.trans h2.1, isPrefixOf_trans as bs cs h1.2 h2.2⟩

theorem containsAux_of_isPrefixOf :
    ∀ (hs pre n : List Char), pre.isPrefixOf hs = true →
      containsAux n pre = true → containsAux n hs = true
  | hs, [], n, _, hc => by
    simp only [containsAux, List.isEmpty_iff] at hc
    subst hc
    exact containsAux_nil_needle hs
  | [], p :: ps, n, hp, _ => by simp [List.isPrefixOf] at hp
  | h :: ht, p :: ps, n, hp, hc => by
    simp only [List.isPrefixOf, Bool.and_eq_true, beq_iff_eq] at hp
    simp only [containsAux, Bool.or_eq_true] at hc ⊢
    rcases hc with hc | hc
    · left
      have hph : (p :: ps).isPrefixOf (h :: ht) = true := by
        simp only [List.isPrefixOf, Bool.and_eq_true, beq_iff_eq]
        exact hp
      exact isPrefixOf_trans n (p :: ps) (h :: ht) hc hph
    · right
      exact containsAux_of_isPrefixOf ht ps n hp.2 hc

/-- Substring containment transfers along a string-level starts-with. -/
theorem pyContains_of_pyStartsWith (s p needle : String)
    (h1 : pyStartsWith s p = true) (h2 : pyContains p needle = true) :
    pyContains s needle = true :=
  containsAux_of_isPrefixOf s.data p.data needle.data h1 h2

theorem dropWhile_head?_not {α : Type} (p : α → Bool) (l : List α) (a : α)
    (h : (l.dropWhile p).head? = some a) : p a = false := by
  have hm := List.head?_dropWhile_not p l
  rw [h] at hm
  exact hm

theorem getLast?_dropWhile {α : Type} (p : α → Bool) :
    ∀ (l : List α) (a : α), (l.dropWhile p).getLast? = some a →
      l.getLast? = some a
  | [], a, h => by simp [List.dropWhile] at h
  | c :: cs, a, h => by
    rw [List.dropWhile_cons] at h
    by_cases hp : p c
    · simp only [hp, if_true] at h
      have hcs := getLast?_dropWhile p cs a h
      have hne : cs ≠ [] := by
        intro hnil
        rw [hnil] at hcs
        simp at hcs
      cases cs with
      | nil => exact absurd rfl hne
      | cons d ds => rw [List.getLast?_cons_cons]; exact hcs
    · simp only [hp, if_false] at h
      exact h

theorem dropWhile_eq_self_of_head? {α : Type} (p : α → Bool) (l : List α)
    (x : α) (hx : l.head? = some x) (hpx : p x = false) :
    l.dropWhile p = l := by
  cases l with
  | nil => simp at hx
  | cons c cs =>
    have hcx : c = x := by
      simp only [List.head?_cons, Option.some.injEq] at hx
      exact hx
    subst hcx
    rw [List.dropWhile_cons, hpx]
    simp

theorem stripList_nil : stripList [] = [] := rfl

theorem stripList_getLast? (cs : List Char) (b : Char)
    (h : (stripList cs).getLast? = some b) : isWs b = false := by
  unfold stripList at h
  rw [List.getLast?_reverse] at h
  exact dropWhile_head?_not isWs _ b h

theorem stripList_head? (cs : List Char) (a : Char)
    (h : (stripList cs).head? = some a) : isWs a = false := by
  unfold stripList at h
  rw [List.head?_reverse] at h
  have h2 := getLast?_dropWhile isWs _ a h
  rw [List.getLast?_reverse] at h2
  exact dropWhile_head?_not isWs _ a h2

theorem stripList_of_ends (cs : List Char) (a b : Char)
    (ha : cs.head? = some a) (hwa : isWs a = false)
    (hb : cs.getLast? = some b) (hwb : isWs b = false) :
    stripList cs = cs := by
  unfold stripList
  rw [dropWhile_eq_self_of_head? isWs cs a ha hwa]
  have hrh : cs.reverse.head? = some b := by
    rw [List.head?_reverse]
    exact hb
  rw [dropWhile_eq_self_of_head? isWs cs.reverse b hrh hwb]
  exact List.reverse_reverse cs

theorem stripList_idem (cs : List Char) :
    stripList (stripList cs) = stripList cs := by
  cases h : stripList cs with
  | nil => rfl
  | cons a rest =>
    have ha : (stripList cs).head? = some a := by rw [h]; rfl
    cases hgl : (stripList cs).getLast? with
    | none =>
      rw [List.getLast?_eq_none_iff, h] at hgl
      exact absurd hgl (List.cons_ne_nil a rest)
    | some b =>
      rw [← h]
      exact stripList_of_ends (stripList cs) a b ha
        (stripList_head? cs a ha) hgl (stripList_getLast? cs b hgl)

theorem pyStrip_data (s : String) : (pyStrip s).data = stripList s.data := rfl

theorem pyStrip_eq_self_of (s : String) (h : stripList s.data = s.data) :
    pyStrip s = s :=
  String.ext (by rw [pyStrip_data, h])

theorem pyStrip_idem (s : String) : pyStrip (pyStrip s) = pyStrip s :=
  pyStrip_eq_self_of (pyStrip s) (by rw [pyStrip_data]; exact stripList_idem s.data)

theorem data_of_stripped (s : String) (h : pyStrip s = s) :
    stripList s.data = s.data := by
  conv_rhs => rw [← h]
  rfl

theorem pyStrip_head_not_ws (s : String) (a : Char) (hs : pyStrip s = s)
    (h : s.data.head? = some a) : isWs a = false := by
  have hd := data_of_stripped s hs
  apply stripList_head? s.data a
  rw [hd]
  exact h

theorem pyStrip_getLast_not_ws (s : String) (b : Char) (hs : pyStrip s = s)
    (h : s.data.getLast? = some b) : isWs b = false := by
  have hd := data_of_stripped s hs
  apply stripList_getLast? s.data b
  rw [hd]
  exact h

theorem string_data_append (s t : String) : (s ++ t).data = s.data ++ t.data := by
  cases s
  cases t
  rfl

theorem data_eq_nil_iff (s : String) : s.data = [] ↔ s = "" := by
  constructor
  · intro h
    apply String.ext
    rw [h]
  · intro h
    rw [h]

theorem pyJoin_ne_empty (sep : String) :
    ∀ (parts : List String), parts ≠ [] → (∀ q ∈ parts, q ≠ "") →
      pyJoin sep parts ≠ ""
  | [], hne, _ => absurd rfl hne
  | [s], _, hall => hall s (List.mem_singleton.mpr rfl)
  | s :: t :: rest, _, hall => by
    intro hcontra
    have hd : (pyJoin sep (s :: t :: rest)).data = [] := by
      rw [hcontra]
    rw [show pyJoin sep (s :: t :: rest) = s ++ sep ++ pyJoin sep (t :: rest)
        from rfl] at hd
    rw [string_data_append, string_data_append] at hd
    have hs : s.data = [] := (List.append_eq_nil.mp
      ((List.append_eq_nil.mp hd).1)).1
    have : s = "" := (data_eq_nil_iff s).mp hs
    exact hall s (List.mem_cons_self s _) this

theorem pyStrip_pyJoin (sep : String) :
    ∀ (parts : List String), (∀ q ∈ parts, q ≠ "" ∧ pyStrip q = q) →
      pyStrip (pyJoin sep parts) = pyJoin sep parts
  | [], _ => by
    apply pyStrip_eq_self_of
    rfl
  | [s], h => (h s (List.mem_singleton.mpr rfl)).2
  | s :: t :: rest, h => by
    have hs := h s (List.mem_cons_self s _)
    have hrest : ∀ q ∈ t :: rest, q ≠ "" ∧ pyStrip q = q := by
      intro q hq
      exact h q (List.mem_cons_of_mem s hq)
    have hJ := pyStrip_pyJoin sep (t :: rest) hrest
    have hJne : pyJoin sep (t :: rest) ≠ "" :=
      pyJoin_ne_empty sep (t :: rest) (List.cons_ne_nil t rest)
        (fun q hq => (hrest q hq).1)
    set J := pyJoin sep (t :: rest) with hJdef
    show pyStrip (s ++ sep ++ J) = s ++ sep ++ J
    apply pyStrip_eq_self_of
    have hdata : (s ++ sep ++ J).data = (s.data ++ sep.data) ++ J.data := by
      rw [string_data_append, string_data_append]
    -- head of the appended data is the head of s.data, which is not whitespace
    have hsne : s.data ≠ [] := by
      intro hnil
      exact hs.1 ((data_eq_nil_iff s).mp hnil)
    have hJne' : J.data ≠ [] := by
      intro hnil
      exact hJne ((data_eq_nil_iff J).mp hnil)
    obtain ⟨a, ha⟩ : ∃ a, s.data.head? = some a := by
      cases hsd : s.data with
      | nil => exact absurd hsd hsne
      | cons x xs => exact ⟨x, rfl⟩
    obtain ⟨b, hb⟩ : ∃ b, J.data.getLast? = some b := by
      cases hgl : J.data.getLast? with
      | none => exact absurd (List.getLast?_eq_none_iff.mp hgl) hJne'
      | some x => exact ⟨x, rfl⟩
    have hhead : (s ++ sep ++ J).data.head? = some a := by
      rw [hdata, List.head?_append, List.head?_append, ha]
      rfl
    have hlast : (s ++ sep ++ J).data.getLast? = some b := by
      rw [hdata, List.getLast?_append, hb]
      rfl
    exact stripList_of_ends _ a b hhead
      (pyStrip_head_not_ws s a hs.2 ha) hlast
      (pyStrip_getLast_not_ws J b hJ hb)

theorem getText_parts (n : Node) :
    ∀ q ∈ (n.strings.map pyStrip).filter (fun s => s != ""),
      q ≠ "" ∧ pyStrip q = q := by
  intro q hq
  rw [List.mem_filter] at hq
  obtain ⟨hmem, hq2⟩ := hq
  rw [List.mem_map] at hmem
  obtain ⟨x, _, rfl⟩ := hmem
  refine ⟨?_, pyStrip_idem x⟩
  simpa using hq2

/-- The flattened text of a node is always a stripped string. -/
theorem pyStrip_getText (n : Node) (sep : String) :
    pyStrip (n.getText sep) = n.getText sep :=
  pyStrip_pyJoin sep _ (getText_parts n)

/-- `text_or_none` only ever returns `none` or a non-empty stripped string. -/
theorem text_or_none_some (node : Option Node) (t : String)
    (h : text_or_none node = some t) : t ≠ "" ∧ pyStrip t = t := by
  match node with
  | none => simp [text_or_none] at h
  | some n =>
    simp only [text_or_none] at h
    by_cases he : n.getText "" = ""
    · simp [he] at h
    · simp only [he, if_false] at h
      cases h
      exact ⟨he, pyStrip_getText n ""⟩

/-! ## Optional-field invariants -/

theorem optOk_none : OptOk none := by
  intro t h
  simp at h

theorem optOk_text_or_none (node : Option Node) : OptOk (text_or_none node) :=
  fun t h => text_or_none_some node t h

theorem optOk_orElse (a b : Option String) (ha : OptOk a) (hb : OptOk b) :
    OptOk (a <|> b) := by
  intro t h
  cases a with
  | none => exact hb t h
  | some x =>
    simp only [Option.some_orElse] at h
    exact ha t h

theorem optTrim_none : OptTrim none := by
  intro t h
  simp at h

theorem optTrim_of_optOk (o : Option String) (h : OptOk o) : OptTrim o :=
  fun t ht => (h t ht).2

theorem optTrim_some_pyStrip (s : String) : OptTrim (some (pyStrip s)) := by
  intro t h
  cases h
  exact pyStrip_idem s

theorem processMetaItem_ok (acc : MetaAcc) (item : MetaItem)
    (h : MetaAccOk acc) : MetaAccOk (processMetaItem acc item) := by
  obtain ⟨h1, h2, h3, h4⟩ := h
  unfold processMetaItem
  cases text_or_none item.label with
  | none =>
    by_cases hinfo : item.isInfo
    · simp only [hinfo, if_true]
      exact ⟨h1, h2, h3, optOk_orElse _ _ (optOk_text_or_none item.value) h4⟩
    · simp only [hinfo, if_false]
      exact ⟨h1, h2, h3, h4⟩
  | some l =>
    simp only []
    by_cases hd : pyContains (pyLower l) "date"
    · simp only [hd, if_true]
      exact ⟨optOk_orElse _ _ (optOk_text_or_none item.value) h1, h2, h3, h4⟩
    · simp only [hd, if_false]
      by_cases hl : pyContains (pyLower l) "location"
      · simp only [hl, if_true]
        exact ⟨h1, optOk_orElse _ _ (optOk_text_or_none item.value) h2, h3, h4⟩
      · simp only [hl, if_false]
        by_cases ht : pyContains (pyLower l) "type"
        · simp only [ht, if_true]
          exact ⟨h1, h2, optOk_orElse _ _ (optOk_text_or_none item.value) h3, h4⟩
        · simp only [ht, if_false]
          exact ⟨h1, h2, h3, h4⟩

theorem foldl_processMetaItem_ok (items : List MetaItem) (acc : MetaAcc)
    (h : MetaAccOk acc) : MetaAccOk (items.foldl processMetaItem acc) := by
  induction items generalizing acc with
  | nil => exact h
  | cons item rest ih =>
    exact ih (processMetaItem acc item) (processMetaItem_ok acc item h)

theorem datesStep_ok (acc : Option String × Option String) (col : Col)
    (h : PairOk acc) : PairOk (datesStep acc col) := by
  unfold datesStep
  by_cases h1 : pyContains (pyLower ((text_or_none col.font_bold).getD ""))
      "event starts"
  · simp only [h1, if_true]
    exact ⟨optOk_text_or_none col.h2, h.2⟩
  · simp only [h1, if_false]
    by_cases h2 : pyContains (pyLower ((text_or_none col.font_bold).getD ""))
        "event ends"
    · simp only [h2, if_true]
      exact ⟨h.1, optOk_text_or_none col.h2⟩
    · simp only [h2, if_false]
      exact h

theorem cfpDatesStep_ok (acc : Option String × Option String) (col : Col)
    (h : PairOk acc) : PairOk (cfpDatesStep acc col) := by
  unfold cfpDatesStep
  by_cases h1 : pyContains (pyLower ((text_or_none col.font_bold).getD ""))
      "call opens"
  · simp only [h1, if_true]
    exact ⟨optOk_text_or_none col.h2, h.2⟩
  · simp only [h1, if_false]
    by_cases h2 : pyContains (pyLower ((text_or_none col.font_bold).getD ""))
        "call closes"
    · simp only [h2, if_true]
      exact ⟨h.1, optOk_text_or_none col.h2⟩
    · simp only [h2, if_false]
      exact h

theorem cfpListStep_trim (acc : Option String × Option String) (li : Node)
    (h : PairTrim acc) : PairTrim (cfpListStep acc li) := by
  unfold cfpListStep
  by_cases h1 : (pyStartsWith (pyLower (li.getText " ")) "cfp notifications" ||
      pyContains (pyLower (li.getText " ")) "notifications") = true
  · simp only [h1, if_true]
    exact ⟨optTrim_some_pyStrip _, h.2⟩
  · simp only [h1, if_false]
    by_cases h2 : (pyStartsWith (pyLower (li.getText " ")) "schedule announced" ||
        pyContains (pyLower (li.getText " ")) "schedule announced") = true
    · simp only [h2, if_true]
      exact ⟨h.1, optTrim_some_pyStrip _⟩
    · simp only [h2, if_false]
      exact h

theorem foldl_datesStep_ok (cols : List Col)
    (acc : Option String × Option String) (h : PairOk acc) :
    PairOk (cols.foldl datesStep acc) := by
  induction cols generalizing acc with
  | nil => exact h
  | cons col rest ih => exact ih (datesStep acc col) (datesStep_ok acc col h)

theorem foldl_cfpDatesStep_ok (cols : List Col)
    (acc : Option String × Option String) (h : PairOk acc) :
    PairOk (cols.foldl cfpDatesStep acc) := by
  induction cols generalizing acc with
  | nil => exact h
  | cons col rest ih =>
    exact ih (cfpDatesStep acc col) (cfpDatesStep_ok acc col h)

theorem foldl_cfpListStep_trim (lis : List Node)
    (acc : Option String × Option String) (h : PairTrim acc) :
    PairTrim (lis.foldl cfpListStep acc) := by
  induction lis generalizing acc with
  | nil => exact h
  | cons li rest ih => exact ih (cfpListStep acc li) (cfpListStep_trim acc li h)

theorem find?_ext {α : Type} (p q : α → Bool) (h : ∀ a, p a = q a) :
    ∀ l : List α, l.find? p = l.find? q
  | [] => rfl
  | a :: as => by
    rw [List.find?_cons, List.find?_cons, h a]
    cases q a with
    | true => rfl
    | false => exact find?_ext p q h as

/-! ## Claim theorems -/

/-- C5: the text-normalization helper strips leading and trailing whitespace
from a node's text; a missing node, empty text, or all-whitespace text is
reported as absent (`none`), never as the empty string; the helper never
returns the empty string. -/
theorem C5_text_normalization :
    (∀ s : String, text_or_none (some ⟨[s]⟩) =
        if pyStrip s = "" then none else some (pyStrip s)) ∧
    text_or_none none = none ∧
    (∀ s : String, (∀ c ∈ s.data, isWs c = true) →
      text_or_none (some ⟨[s]⟩) = none) ∧
    (∀ (node : Option Node) (t : String), text_or_none node = some t →
      t ≠ "") := by
  have hsingle : ∀ s : String, text_or_none (some ⟨[s]⟩) =
      if pyStrip s = "" then none else some (pyStrip s) := by
    intro s
    by_cases h : pyStrip s = ""
    · simp [text_or_none, Node.getText, h, pyJoin]
    · simp [text_or_none, Node.getText, h, pyJoin]
  refine ⟨hsingle, rfl, ?_, ?_⟩
  · intro s hws
    have h : pyStrip s = "" := by
      apply String.ext
      rw [pyStrip_data]
      unfold stripList
      rw [List.dropWhile_eq_nil_iff.mpr hws]
      rfl
    rw [hsingle s, h]
    rfl
  · intro node t h
    exact (text_or_none_some node t h).1

/-- C5 witness: an all-whitespace node is reported absent; a padded node is
stripped. -/
theorem C5_witness :
    text_or_none (some ⟨["   "]⟩) = none ∧
    text_or_none (some ⟨["  hi  "]⟩) = some "hi" := by
  constructor
  · exact C5_text_normalization.2.2.1 "   " (by decide)
  · exact (C5_text_normalization.1 "  hi  ").trans (by decide)

/-- C3: the link field is the site origin prepended to the href value when
that value starts with "/", the value verbatim otherwise, and the empty
string when the entry has no link node; "/e/abc123" and
"https://example.org/x" resolve as the claim states. -/
theorem C3_link_resolution (entry : Entry) :
    (extractEvent entry).link =
      (if pyStartsWith (entryHref entry) "/" = true
        then "https://sessionize.com" ++ entryHref entry
        else entryHref entry) ∧
    (entry.titleTag = none → (extractEvent entry).link = "") ∧
    resolveLink "/e/abc123" = "https://sessionize.com/e/abc123" ∧
    resolveLink "https://example.org/x" = "https://example.org/x" := by
  refine ⟨?_, ?_, by decide, by decide⟩
  · show resolveLink (entryHref entry) = _
    unfold resolveLink
    by_cases h : entryHref entry = ""
    · rw [h]
      decide
    · have hne : (entryHref entry != "") = true := by
        simpa using h
      cases hP : pyStartsWith (entryHref entry) "/" <;> simp [hne, hP]
  · intro h
    show resolveLink (entryHref entry) = ""
    unfold entryHref
    rw [h]
    decide

/-- C3 witness: a relative link is resolved against the site origin and the
absent-link case yields the empty string. -/
theorem C3_witness :
    (extractEvent
        { titleTag := some ⟨⟨["KubeCon"]⟩, some "/e/abc123"⟩,
          metaItems := [] }).link = "https://sessionize.com/e/abc123" ∧
    (extractEvent { titleTag := none, metaItems := [] }).link = "" := by
  constructor
  · exact (C3_link_resolution
      { titleTag := some ⟨⟨["KubeCon"]⟩, some "/e/abc123"⟩,
        metaItems := [] }).1.trans (by decide)
  · exact (C3_link_resolution
      { titleTag := none, metaItems := [] }).2.1 rfl

/-- C4: a labelless meta item carrying the "is-info" marker assigns its value
(when present) to the status field and leaves date, location and event type
untouched; a labelless item without the marker changes nothing, so label
absence alone never assigns status. -/
theorem C4_labelless_meta_items (acc : MetaAcc) (item : MetaItem)
    (hl : text_or_none item.label = none) :
    (item.isInfo = true →
      (processMetaItem acc item).date_val = acc.date_val ∧
      (processMetaItem acc item).location_val = acc.location_val ∧
      (processMetaItem acc item).type_val = acc.type_val ∧
      ∀ v, text_or_none item.value = some v →
        (processMetaItem acc item).status_val = some v) ∧
    (item.isInfo = false → processMetaItem acc item = acc) := by
  constructor
  · intro hi
    refine ⟨by simp [processMetaItem, hl, hi],
      by simp [processMetaItem, hl, hi],
      by simp [processMetaItem, hl, hi], ?_⟩
    intro v hv
    simp [processMetaItem, hl, hi, hv]
  · intro hi
    simp [processMetaItem, hl, hi]

/-- C4 witness: an info-marked labelless item with value "Closing Soon" sets
status and leaves the other fields of a populated accumulator unchanged; an
unmarked labelless item is skipped. -/
theorem C4_witness :
    (processMetaItem ⟨some "d", some "l", some "t", none⟩
        { classes := some ["c-entry__meta-item", "is-info"], label := none,
          value := some ⟨["Closing Soon"]⟩ }).date_val = some "d" ∧
    (processMetaItem ⟨some "d", some "l", some "t", none⟩
        { classes := some ["c-entry__meta-item", "is-info"], label := none,
          value := some ⟨["Closing Soon"]⟩ }).status_val =
      some "Closing Soon" ∧
    processMetaItem ⟨some "d", some "l", some "t", none⟩
        { classes := none, label := none, value := some ⟨["X"]⟩ } =
      ⟨some "d", some "l", some "t", none⟩ := by
  have h := C4_labelless_meta_items ⟨some "d", some "l", some "t", none⟩
    { classes := some ["c-entry__meta-item", "is-info"], label := none,
      value := some ⟨["Closing Soon"]⟩ } (by decide)
  have h2 := C4_labelless_meta_items ⟨some "d", some "l", some "t", none⟩
    { classes := none, label := none, value := some ⟨["X"]⟩ } (by decide)
  exact ⟨(h.1 (by decide)).1, (h.1 (by decide)).2.2.2 "Closing Soon"
    (by decide), h2.2 (by decide)⟩

/-- C10: when a lower-cased label contains more than one of the keys "date",
"location", "type", exactly one field is updated, chosen by the fixed
priority date, then location, then type; the other fields of the
accumulator are untouched by that item. -/
theorem C10_label_priority (acc : MetaAcc) (item : MetaItem) (l : String)
    (hl : text_or_none item.label = some l) :
    (pyContains (pyLower l) "date" = true →
      (pyContains (pyLower l) "location" = true ∨
        pyContains (pyLower l) "type" = true) →
      (processMetaItem acc item).location_val = acc.location_val ∧
      (processMetaItem acc item).type_val = acc.type_val ∧
      (processMetaItem acc item).status_val = acc.status_val ∧
      (processMetaItem acc item).date_val =
        (text_or_none item.value <|> acc.date_val)) ∧
    (pyContains (pyLower l) "date" = false →
      pyContains (pyLower l) "location" = true →
      pyContains (pyLower l) "type" = true →
      (processMetaItem acc item).date_val = acc.date_val ∧
      (processMetaItem acc item).type_val = acc.type_val ∧
      (processMetaItem acc item).status_val = acc.status_val ∧
      (processMetaItem acc item).location_val =
        (text_or_none item.value <|> acc.location_val)) := by
  constructor
  · intro hd _
    simp [processMetaItem, hl, hd]
  · intro hd hloc _
    simp [processMetaItem, hl, hd, hloc]

/-- C10 witness: the label "Date / Type" contains both "date" and "type" but
only the date field is assigned. -/
theorem C10_witness :
    (processMetaItem ⟨none, none, some "old", none⟩
        { classes := none, label := some ⟨["Date / Type"]⟩,
          value := some ⟨["V"]⟩ }).type_val = some "old" ∧
    (processMetaItem ⟨none, none, some "old", none⟩
        { classes := none, label := some ⟨["Date / Type"]⟩,
          value := some ⟨["V"]⟩ }).date_val = some "V" := by
  have h := (C10_label_priority ⟨none, none, some "old", none⟩
    { classes := none, label := some ⟨["Date / Type"]⟩,
      value := some ⟨["V"]⟩ } "Date / Type" (by decide)).1 (by decide)
    (Or.inr (by decide))
  exact ⟨h.2.1, h.2.2.2.trans (by decide)⟩

/-- C2 counterexample: two meta items of one entry both match "location";
the later item's value node is absent, and the extracted record keeps the
earlier value "A" instead of the later item's (absent) value — the later
item does not overwrite. -/
theorem C2_counterexample :
    fetch_cfp_events
        [{ titleTag := none,
           metaItems :=
            [{ classes := none, label := some ⟨["Location"]⟩,
               value := some ⟨["A"]⟩ },
             { classes := none, label := some ⟨["Location"]⟩,
               value := none }] }] =
      [{ title := "", link := "", date := none, location := some "A",
         event_type := none, status := none }] ∧
    pyContains (pyLower "Location") "location" = true ∧
    text_or_none (none : Option Node) = none := by
  decide

/-- C2 amended: a present label is lower-cased and matched by substring
containment against "date", "location", "type" in that order; the matching
branch sets its field to the item's value when the value is present, and
keeps the previously accumulated value when the item's value is absent
(so a later duplicate label overwrites only when its value is present). -/
theorem C2_meta_label_rules (acc : MetaAcc) (item : MetaItem) (l : String)
    (hl : text_or_none item.label = some l) :
    (pyContains (pyLower l) "date" = true →
      processMetaItem acc item =
        { acc with date_val := text_or_none item.value <|> acc.date_val }) ∧
    (pyContains (pyLower l) "date" = false →
      pyContains (pyLower l) "location" = true →
      processMetaItem acc item =
        { acc with location_val :=
            text_or_none item.value <|> acc.location_val }) ∧
    (pyContains (pyLower l) "date" = false →
      pyContains (pyLower l) "location" = false →
      pyContains (pyLower l) "type" = true →
      processMetaItem acc item =
        { acc with type_val := text_or_none item.value <|> acc.type_val }) ∧
    (pyContains (pyLower l) "date" = false →
      pyContains (pyLower l) "location" = false →
      pyContains (pyLower l) "type" = false →
      processMetaItem acc item = acc) := by
  refine ⟨?_, ?_, ?_, ?_⟩
  · intro hd
    simp [processMetaItem, hl, hd]
  · intro hd hloc
    simp [processMetaItem, hl, hd, hloc]
  · intro hd hloc ht
    simp [processMetaItem, hl, hd, hloc, ht]
  · intro hd hloc ht
    simp [processMetaItem, hl, hd, hloc, ht]

/-- C2 witness: a "Location" item with a present value overwrites an earlier
value; one with an absent value keeps it. -/
theorem C2_witness :
    processMetaItem ⟨none, some "A", none, none⟩
        { classes := none, label := some ⟨["Location"]⟩,
          value := some ⟨["B"]⟩ } =
      ⟨none, some "B", none, none⟩ ∧
    processMetaItem ⟨none, some "A", none, none⟩
        { classes := none, label := some ⟨["Location"]⟩, value := none } =
      ⟨none, some "A", none, none⟩ := by
  constructor
  · exact ((C2_meta_label_rules ⟨none, some "A", none, none⟩
      { classes := none, label := some ⟨["Location"]⟩,
        value := some ⟨["B"]⟩ } "Location" (by decide)).2.1 (by decide)
      (by decide)).trans (by decide)
  · exact ((C2_meta_label_rules ⟨none, some "A", none, none⟩
      { classes := none, label := some ⟨["Location"]⟩,
        value := none } "Location" (by decide)).2.1 (by decide)
      (by decide)).trans (by decide)

/-- C6 counterexample: the flattened text of a list item contains
"schedule announced" (case-insensitively), yet `schedule_announced` stays
absent because the text also contains "notifications" and the two tests are
exclusive branches — notifications wins. -/
theorem C6_counterexample :
    pyContains (pyLower "Schedule announced and notifications: 1 May")
      "schedule announced" = true ∧
    (fetch_event_details
        [{ header_h4 := none, header_h5 := some ⟨["Call for Papers"]⟩,
           cols := [], tz_small := none,
           list_items :=
            [⟨["Schedule announced and notifications: 1 May"]⟩] }]
      ).schedule_announced = none ∧
    (fetch_event_details
        [{ header_h4 := none, header_h5 := some ⟨["Call for Papers"]⟩,
           cols := [], tz_small := none,
           list_items :=
            [⟨["Schedule announced and notifications: 1 May"]⟩] }]
      ).cfp_notifications = some "1 May" := by
  refine ⟨by decide, ?_, ?_⟩ <;> decide

/-- C6 amended: for each list item's flattened text, if it contains
"notifications" (case-insensitive) then the notifications field is set to
everything after the first colon, trimmed; otherwise, if it contains
"schedule announced", the schedule field is set the same way; a text
containing neither leaves the state unchanged; and for a text with no colon
the assigned value is the whole text. -/
theorem C6_list_item_scan (acc : Option String × Option String) (li : Node) :
    (pyContains (pyLower (li.getText " ")) "notifications" = true →
      cfpListStep acc li =
        (some (pyStrip (afterFirstColon (li.getText " "))), acc.2)) ∧
    (pyContains (pyLower (li.getText " ")) "notifications" = false →
      pyContains (pyLower (li.getText " ")) "schedule announced" = true →
      cfpListStep acc li =
        (acc.1, some (pyStrip (afterFirstColon (li.getText " "))))) ∧
    (pyContains (pyLower (li.getText " ")) "notifications" = false →
      pyContains (pyLower (li.getText " ")) "schedule announced" = false →
      cfpListStep acc li = acc) ∧
    (':' ∉ (li.getText " ").data →
      pyStrip (afterFirstColon (li.getText " ")) = li.getText " ") := by
  refine ⟨?_, ?_, ?_, ?_⟩
  · intro h
    simp [cfpListStep, h]
  · intro h1 h2
    have hsw : pyStartsWith (pyLower (li.getText " ")) "cfp notifications"
        = false := by
      cases hs : pyStartsWith (pyLower (li.getText " ")) "cfp notifications"
      · rfl
      · exact absurd (pyContains_of_pyStartsWith _ "cfp notifications"
          "notifications" hs (by decide)) (by simp [h1])
    simp [cfpListStep, h1, h2, hsw]
  · intro h1 h2
    have hsw : pyStartsWith (pyLower (li.getText " ")) "cfp notifications"
        = false := by
      cases hs : pyStartsWith (pyLower (li.getText " ")) "cfp notifications"
      · rfl
      · exact absurd (pyContains_of_pyStartsWith _ "cfp notifications"
          "notifications" hs (by decide)) (by simp [h1])
    have hsw2 : pyStartsWith (pyLower (li.getText " ")) "schedule announced"
        = false := by
      cases hs : pyStartsWith (pyLower (li.getText " ")) "schedule announced"
      · rfl
      · exact absurd (pyContains_of_pyStartsWith _ "schedule announced"
          "schedule announced" hs (by decide)) (by simp [h2])
    simp [cfpListStep, h1, h2, hsw, hsw2]
  · intro hcolon
    have hdw : (li.getText " ").data.dropWhile (fun c => c != ':') = [] := by
      apply List.dropWhile_eq_nil_iff.mpr
      intro c hc
      simp only [bne_iff_ne, ne_eq]
      intro hceq
      exact hcolon (hceq ▸ hc)
    rw [show afterFirstColon (li.getText " ") = li.getText " " from by
      unfold afterFirstColon
      rw [hdw]]
    exact pyStrip_getText li " "

/-- C6 witness: the item "CFP Notifications: Monday, 8 December" assigns the
trimmed text after the colon, and a colonless notifications item assigns its
whole text. -/
theorem C6_witness :
    cfpListStep (none, none) ⟨["CFP Notifications: Monday, 8 December"]⟩ =
      (some "Monday, 8 December", none) ∧
    cfpListStep (none, none) ⟨["General notifications"]⟩ =
      (some "General notifications", none) := by
  constructor
  · exact ((C6_list_item_scan (none, none)
      ⟨["CFP Notifications: Monday, 8 December"]⟩).1 (by decide)).trans
      (by decide)
  · exact ((C6_list_item_scan (none, none)
      ⟨["General notifications"]⟩).1 (by decide)).trans (by decide)

/-- C7 counterexample: with a first container whose h4 heading node exists
but has empty text and a second container with heading "My Event", the
specified selection picks the second container, but the code picks the
first, so the extracted title is absent instead of "My Event". -/
theorem C7_counterexample :
    primary_box_claim
        [{ header_h4 := some ⟨[]⟩, header_h5 := none, cols := [],
           tz_small := none, list_items := [] },
         { header_h4 := some ⟨["My Event"]⟩, header_h5 := none, cols := [],
           tz_small := none, list_items := [] }] =
      some { header_h4 := some ⟨["My Event"]⟩, header_h5 := none, cols := [],
             tz_small := none, list_items := [] } ∧
    event_box_of
        [{ header_h4 := some ⟨[]⟩, header_h5 := none, cols := [],
           tz_small := none, list_items := [] },
         { header_h4 := some ⟨["My Event"]⟩, header_h5 := none, cols := [],
           tz_small := none, list_items := [] }] =
      some { header_h4 := some ⟨[]⟩, header_h5 := none, cols := [],
             tz_small := none, list_items := [] } ∧
    (fetch_event_details
        [{ header_h4 := some ⟨[]⟩, header_h5 := none, cols := [],
           tz_small := none, list_items := [] },
         { header_h4 := some ⟨["My Event"]⟩, header_h5 := none, cols := [],
           tz_small := none, list_items := [] }]).title = none ∧
    text_or_none (some ⟨["My Event"]⟩) = some "My Event" := by
  refine ⟨by decide, by decide, by decide, by decide⟩

/-- C7 amended: the primary info container is the first container whose
heading NODE exists — its text may be empty, any existing heading matches
because the empty search string is contained in every text; if no container
has a heading node, the first container in document order is used; and a
document with no containers leaves title, event starts, event ends and
location absent. -/
theorem C7_primary_box_selection (iboxes : List Ibox) :
    event_box_of iboxes =
      ((iboxes.find? fun b => b.header_h4.isSome) <|> iboxes.head?) ∧
    (iboxes = [] →
      (fetch_event_details iboxes).title = none ∧
      (fetch_event_details iboxes).event_starts = none ∧
      (fetch_event_details iboxes).event_ends = none ∧
      (fetch_event_details iboxes).location = none) := by
  constructor
  · have hpred : ∀ b : Ibox,
        (match b.header HeaderTag.h4 with
          | some h => pyContains (pyLower (h.getText "")) (pyLower "")
          | none => false) = b.header_h4.isSome := by
      intro b
      show (match b.header_h4 with
        | some h => pyContains (pyLower (h.getText "")) (pyLower "")
        | none => false) = b.header_h4.isSome
      cases b.header_h4 with
      | none => rfl
      | some h =>
        show pyContains (pyLower (h.getText "")) (pyLower "") = true
        exact containsAux_nil_needle _
    unfold event_box_of find_ibox_by_header
    rw [find?_ext _ _ hpred iboxes]
    cases iboxes.find? (fun b => b.header_h4.isSome) with
    | none => simp
    | some b => rfl
  · intro h
    subst h
    exact ⟨rfl, rfl, rfl, rfl⟩

/-- C7 witness: on a singleton document whose only container has a heading
node, the code selects that container, and the empty document leaves the
four fields absent. -/
theorem C7_witness :
    event_box_of
        [{ header_h4 := some ⟨["Ev"]⟩, header_h5 := none, cols := [],
           tz_small := none, list_items := [] }] =
      some { header_h4 := some ⟨["Ev"]⟩, header_h5 := none, cols := [],
             tz_small := none, list_items := [] } ∧
    (fetch_event_details ([] : List Ibox)).title = none := by
  constructor
  · exact (C7_primary_box_selection
      [{ header_h4 := some ⟨["Ev"]⟩, header_h5 := none, cols := [],
         tz_small := none, list_items := [] }]).1.trans (by decide)
  · exact ((C7_primary_box_selection ([] : List Ibox)).2 rfl).1

/-- C9: when some full-width sub-block has a label containing "location",
the location field is computed from the FIRST such sub-block (the later ones
are never consulted): the text of the last inline segment when segments
exist, the text of the whole value area otherwise. -/
theorem C9_location_extraction (ibox : Ibox) (col : Col)
    (h : locationCol ibox = some col) :
    col ∈ ibox.cols ∧
    col.kind = ColKind.sm12 ∧
    pyContains (pyLower ((text_or_none col.font_bold).getD ""))
      "location" = true ∧
    (extract_title_date_location ibox).2.2.2 =
      text_or_none
        (if !col.h2_blocks.isEmpty then col.h2_blocks.getLast?
          else col.h2) := by
  have h0 := h
  unfold locationCol at h
  have hmem := List.mem_of_find?_eq_some h
  rw [List.mem_filter] at hmem
  refine ⟨hmem.1, of_decide_eq_true hmem.2, ?_, ?_⟩
  · have hp := List.find?_some h
    simpa using hp
  · simp [extract_title_date_location, h0]

/-- C9 witness: segments ["Venue X", "Springfield, USA"] yield the location
"Springfield, USA" (last segment wins). -/
theorem C9_witness :
    (extract_title_date_location
        { header_h4 := some ⟨["Ev"]⟩, header_h5 := none,
          cols := [{ kind := ColKind.sm12,
                     font_bold := some ⟨["Location"]⟩,
                     h2 := some ⟨["Venue X Springfield, USA"]⟩,
                     h2_blocks := [⟨["Venue X"]⟩, ⟨["Springfield, USA"]⟩] }],
          tz_small := none, list_items := [] }).2.2.2 =
      some "Springfield, USA" := by
  exact ((C9_location_extraction
    { header_h4 := some ⟨["Ev"]⟩, header_h5 := none,
      cols := [{ kind := ColKind.sm12,
                 font_bold := some ⟨["Location"]⟩,
                 h2 := some ⟨["Venue X Springfield, USA"]⟩,
                 h2_blocks := [⟨["Venue X"]⟩, ⟨["Springfield, USA"]⟩] }],
      tz_small := none, list_items := [] }
    { kind := ColKind.sm12,
      font_bold := some ⟨["Location"]⟩,
      h2 := some ⟨["Venue X Springfield, USA"]⟩,
      h2_blocks := [⟨["Venue X"]⟩, ⟨["Springfield, USA"]⟩] }
    (by decide)).2.2.2).trans (by decide)

/-- C8: when no container's h5 heading contains "Call for Papers"
(case-insensitively), the detail extraction still returns a record, with the
five CFP fields absent, while title, event starts, event ends and location
are still extracted from the primary container. -/
theorem C8_missing_cfp_container (iboxes : List Ibox)
    (h : ∀ b ∈ iboxes,
      (match b.header_h5 with
        | some hn =>
          pyContains (pyLower (hn.getText "")) (pyLower "Call for Papers")
        | none => false) = false) :
    (fetch_event_details iboxes).cfp_opens = none ∧
    (fetch_event_details iboxes).cfp_closes = none ∧
    (fetch_event_details iboxes).cfp_timezone = none ∧
    (fetch_event_details iboxes).cfp_notifications = none ∧
    (fetch_event_details iboxes).schedule_announced = none ∧
    (∀ b, event_box_of iboxes = some b →
      (fetch_event_details iboxes).title = text_or_none b.header_h4 ∧
      (fetch_event_details iboxes).event_starts =
        (extract_title_date_location b).2.1 ∧
      (fetch_event_details iboxes).event_ends =
        (extract_title_date_location b).2.2.1 ∧
      (fetch_event_details iboxes).location =
        (extract_title_date_location b).2.2.2) := by
  have hfind : find_ibox_by_header iboxes HeaderTag.h5 "Call for Papers"
      = none := by
    apply List.find?_eq_none.mpr
    intro b hb
    intro hcontra
    have hmatch : (match b.header_h5 with
        | some hn =>
          pyContains (pyLower (hn.getText "")) (pyLower "Call for Papers")
        | none => false) = true := hcontra
    rw [h b hb] at hmatch
    exact Bool.false_ne_true hmatch
  refine ⟨?_, ?_, ?_, ?_, ?_, ?_⟩
  · simp [fetch_event_details, hfind]
  · simp [fetch_event_details, hfind]
  · simp [fetch_event_details, hfind]
  · simp [fetch_event_details, hfind]
  · simp [fetch_event_details, hfind]
  · intro b hb
    have hx : (extract_title_date_location b).1 = text_or_none b.header_h4 :=
      rfl
    refine ⟨?_, ?_, ?_, ?_⟩ <;>
      simp only [fetch_event_details, hfind, hb, hx] <;>
      cases text_or_none b.header_h4 <;> rfl

/-- C8 witness: a single-container document with no h5 heading yields absent
CFP fields and an extracted event-starts value. -/
theorem C8_witness :
    (fetch_event_details
        [{ header_h4 := some ⟨["Ev"]⟩, header_h5 := none,
           cols := [{ kind := ColKind.sm6,
                      font_bold := some ⟨["Event starts"]⟩,
                      h2 := some ⟨["9 Feb 2026"]⟩, h2_blocks := [] }],
           tz_small := none, list_items := [] }]).cfp_opens = none ∧
    (fetch_event_details
        [{ header_h4 := some ⟨["Ev"]⟩, header_h5 := none,
           cols := [{ kind := ColKind.sm6,
                      font_bold := some ⟨["Event starts"]⟩,
                      h2 := some ⟨["9 Feb 2026"]⟩, h2_blocks := [] }],
           tz_small := none, list_items := [] }]).event_starts =
      some "9 Feb 2026" := by
  have h := C8_missing_cfp_container
    [{ header_h4 := some ⟨["Ev"]⟩, header_h5 := none,
       cols := [{ kind := ColKind.sm6,
                  font_bold := some ⟨["Event starts"]⟩,
                  h2 := some ⟨["9 Feb 2026"]⟩, h2_blocks := [] }],
       tz_small := none, list_items := [] }] (by decide)
  refine ⟨h.1, ?_⟩
  exact ((h.2.2.2.2.2
    { header_h4 := some ⟨["Ev"]⟩, header_h5 := none,
      cols := [{ kind := ColKind.sm6,
                 font_bold := some ⟨["Event starts"]⟩,
                 h2 := some ⟨["9 Feb 2026"]⟩, h2_blocks := [] }],
      tz_small := none, list_items := [] } (by decide)).2.1).trans (by decide)

theorem extract_tdl_ok (b : Ibox) :
    OptOk (extract_title_date_location b).1 ∧
    OptOk (extract_title_date_location b).2.1 ∧
    OptOk (extract_title_date_location b).2.2.1 ∧
    OptOk (extract_title_date_location b).2.2.2 := by
  have hd := foldl_datesStep_ok b.cols (none, none) ⟨optOk_none, optOk_none⟩
  exact ⟨optOk_text_or_none _, hd.1, hd.2, optOk_text_or_none _⟩

theorem extract_cfp_ok (b : Ibox) :
    OptOk (extract_cfp_section b).1 ∧
    OptOk (extract_cfp_section b).2.1 ∧
    OptOk (extract_cfp_section b).2.2.1 ∧
    OptTrim (extract_cfp_section b).2.2.2.1 ∧
    OptTrim (extract_cfp_section b).2.2.2.2 := by
  have hoc := foldl_cfpDatesStep_ok
    (b.cols.filter (fun c => c.kind = ColKind.sm6)) (none, none)
    ⟨optOk_none, optOk_none⟩
  have hns := foldl_cfpListStep_trim b.list_items (none, none)
    ⟨optTrim_none, optTrim_none⟩
  refine ⟨hoc.1, hoc.2, ?_, hns.1, hns.2⟩
  show OptOk (match b.tz_small with
    | some tz => text_or_none tz.strong <|> text_or_none (some tz.node)
    | none => none)
  cases b.tz_small with
  | none => exact optOk_none
  | some tz =>
    exact optOk_orElse _ _ (optOk_text_or_none _) (optOk_text_or_none _)

/-- C1 counterexample: a Call-for-Papers list item whose text ends in a
colon makes the extraction set `cfp_notifications` to the EMPTY string, not
to an absent value — the invariant fails for this field. -/
theorem C1_counterexample :
    (fetch_event_details
        [{ header_h4 := none, header_h5 := some ⟨["Call for Papers"]⟩,
           cols := [], tz_small := none,
           list_items := [⟨["CFP Notifications:"]⟩] }]).cfp_notifications =
      some "" := by
  decide

/-- C1 amended: every optional field of every Summary and Detail Record
other than `cfp_notifications` and `schedule_announced` is either a
non-empty stripped string or absent; `cfp_notifications` and
`schedule_announced` are stripped strings when present but may be empty
(when the matched list item's text after its first colon is empty, e.g. a
text ending in a colon). -/
theorem C1_optional_field_invariant :
    (∀ (entries : List Entry) (ev : CfpEvent), ev ∈ fetch_cfp_events entries →
      OptOk ev.date ∧ OptOk ev.location ∧ OptOk ev.event_type ∧
        OptOk ev.status) ∧
    (∀ iboxes : List Ibox,
      OptOk (fetch_event_details iboxes).title ∧
      OptOk (fetch_event_details iboxes).event_starts ∧
      OptOk (fetch_event_details iboxes).event_ends ∧
      OptOk (fetch_event_details iboxes).location ∧
      OptOk (fetch_event_details iboxes).cfp_opens ∧
      OptOk (fetch_event_details iboxes).cfp_closes ∧
      OptOk (fetch_event_details iboxes).cfp_timezone ∧
      OptTrim (fetch_event_details iboxes).cfp_notifications ∧
      OptTrim (fetch_event_details iboxes).schedule_announced) := by
  constructor
  · intro entries ev hmem
    simp only [fetch_cfp_events, List.mem_map] at hmem
    obtain ⟨e, _, rfl⟩ := hmem
    have hacc := foldl_processMetaItem_ok e.metaItems ⟨none, none, none, none⟩
      ⟨optOk_none, optOk_none, optOk_none, optOk_none⟩
    exact ⟨hacc.1, hacc.2.1, hacc.2.2.1, hacc.2.2.2⟩
  · intro iboxes
    simp only [fetch_event_details]
    cases hev : event_box_of iboxes with
    | none =>
      cases hcfp : find_ibox_by_header iboxes HeaderTag.h5 "Call for Papers"
        with
      | none =>
        exact ⟨optOk_none, optOk_none, optOk_none, optOk_none, optOk_none,
          optOk_none, optOk_none, optTrim_none, optTrim_none⟩
      | some cb =>
        have hc := extract_cfp_ok cb
        exact ⟨optOk_none, optOk_none, optOk_none, optOk_none, hc.1, hc.2.1,
          hc.2.2.1, hc.2.2.2.1, hc.2.2.2.2⟩
    | some b =>
      have ht := extract_tdl_ok b
      have htitle : OptOk (text_or_none b.header_h4 <|>
          (extract_title_date_location b).1) :=
        optOk_orElse _ _ (optOk_text_or_none _) ht.1
      cases hcfp : find_ibox_by_header iboxes HeaderTag.h5 "Call for Papers"
        with
      | none =>
        exact ⟨htitle, ht.2.1, ht.2.2.1, ht.2.2.2, optOk_none, optOk_none,
          optOk_none, optTrim_none, optTrim_none⟩
      | some cb =>
        have hc := extract_cfp_ok cb
        exact ⟨htitle, ht.2.1, ht.2.2.1, ht.2.2.2, hc.1, hc.2.1, hc.2.2.1,
          hc.2.2.2.1, hc.2.2.2.2⟩

/-- C1 witness: the extracted location "Berlin" of a summary record is
non-empty and stripped, and the extracted notifications value of a detail
record is stripped. -/
theorem C1_witness :
    ("Berlin" ≠ "" ∧ pyStrip "Berlin" = "Berlin") ∧
    pyStrip "Monday, 8 December" = "Monday, 8 December" := by
  constructor
  · exact (C1_optional_field_invariant.1
      [{ titleTag := none,
         metaItems := [{ classes := none, label := some ⟨["Location"]⟩,
                         value := some ⟨["Berlin"]⟩ }] }]
      (extractEvent
        { titleTag := none,
          metaItems := [{ classes := none, label := some ⟨["Location"]⟩,
                          value := some ⟨["Berlin"]⟩ }] })
      (by decide)).2.1 "Berlin" (by decide)
  · exact (C1_optional_field_invariant.2
      [{ header_h4 := none, header_h5 := some ⟨["Call for Papers"]⟩,
         cols := [], tz_small := none,
         list_items := [⟨["CFP Notifications: Monday, 8 December"]⟩] }]
      ).2.2.2.2.2.2.2.1 "Monday, 8 December" (by decide)

end CfpScraper
